import Mathlib

/-!
Verification of the telemetry backend (src/backend/app.py).

The backend stores rows in a SQLite table in insertion order
(AUTOINCREMENT primary key), so the store is modelled as a list of rows
in insertion order.  SQLite compares the TEXT `timestamp` column
byte-wise; this is modelled by lexicographic comparison of the
timestamp strings, `strLe`.

`receive_telemetry` performs no value validation, so a signals mapping
may hold any JSON value (`JValue`): number, string, boolean, null,
array or object (the contents of arrays and objects are irrelevant to
the backend, because the sqlite3 binding layer rejects the container
type itself).  `bindValue` models binding one such value into the
`value REAL NOT NULL` column: a number is stored as REAL; a boolean is
bound as the integer 1 or 0 and coerced to REAL by the column
affinity; a string is coerced to REAL when it is a well-formed numeric
literal (SQLite REAL affinity, `asNumLiteral`) and otherwise stored as
TEXT unchanged; `null` violates the NOT NULL constraint
(sqlite3.IntegrityError) and arrays/objects are unsupported bind types
(sqlite3.InterfaceError), so the INSERT raises.  When any INSERT of a
batch raises, `conn.commit()` never runs and closing the connection
rolls the transaction back, so nothing is persisted:
`store_telemetry` returns `none` and the handler's `except` branch
answers 500.

`get_recent_telemetry` runs
  SELECT timestamp, signal_name, value FROM telemetry
  WHERE timestamp >= cutoff ORDER BY timestamp ASC
and then groups the rows by signal name into an insertion-ordered dict.
The SELECT is modelled as a filter followed by a stable sort on the
timestamp; the grouping loop is modelled by `addRow`/`groupBySignal`
over an association list, which is exactly how a Python dict behaves
for these operations.  The cutoff itself is computed by the caller from
the wall clock, `utcnow` minus the requested number of hours; the model
takes the already-formatted cutoff string as input, since the claims
under study quantify over the cutoff.
-/

namespace TelemetryApp

/-- A JSON value appearing in the `signals` mapping.  No validation
touches it before the INSERT.  Arrays and objects carry no payload
here: sqlite3 rejects the container type itself without inspecting
contents, which is the only way the backend ever looks at them. -/
inductive JValue where
  | num : ℚ → JValue
  | str : String → JValue
  | bool : Bool → JValue
  | null : JValue
  | arr : JValue
  | obj : JValue
deriving DecidableEq, Repr

/-- What the `value REAL NOT NULL` column actually holds after a
successful INSERT: a REAL, or (for non-numeric text, which REAL
affinity cannot convert) the TEXT unchanged. -/
inductive StoredValue where
  | real : ℚ → StoredValue
  | text : String → StoredValue
deriving DecidableEq, Repr

/-- The ASCII whitespace SQLite skips around a numeric literal. -/
def isSpaceChar (c : Char) : Bool :=
  c = ' ' || c = '\t' || c = '\n' || c = '\x0b' || c = '\x0c' || c = '\r'

/-- Value of a block of decimal digits. -/
def digitsToNat (ds : List Char) : ℕ :=
  ds.foldl (fun acc c => 10 * acc + (c.toNat - 48)) 0

/-- Optional leading sign; returns whether the number is negated. -/
def parseSign : List Char → Bool × List Char
  | '-' :: cs => (true, cs)
  | '+' :: cs => (false, cs)
  | cs => (false, cs)

/-- Mantissa of a numeric literal: digits with an optional fraction
part, at least one digit overall. -/
def parseMantissa (cs : List Char) : Option (ℚ × List Char) :=
  let intPart := cs.takeWhile Char.isDigit
  let rest1 := cs.dropWhile Char.isDigit
  match rest1 with
  | '.' :: rest2 =>
    let fracPart := rest2.takeWhile Char.isDigit
    let rest3 := rest2.dropWhile Char.isDigit
    if intPart.isEmpty && fracPart.isEmpty then none
    else some ((digitsToNat intPart : ℚ) +
      (digitsToNat fracPart : ℚ) / ((10 : ℚ) ^ fracPart.length), rest3)
  | _ =>
    if intPart.isEmpty then none
    else some ((digitsToNat intPart : ℚ), rest1)

/-- Optional exponent part of a numeric literal. -/
def parseExponent (cs : List Char) : Option (ℤ × List Char) :=
  match cs with
  | 'e' :: rest =>
    let sr := parseSign rest
    let ds := sr.2.takeWhile Char.isDigit
    let rest3 := sr.2.dropWhile Char.isDigit
    if ds.isEmpty then none
    else some (if sr.1 then -(digitsToNat ds : ℤ) else (digitsToNat ds : ℤ), rest3)
  | 'E' :: rest =>
    let sr := parseSign rest
    let ds := sr.2.takeWhile Char.isDigit
    let rest3 := sr.2.dropWhile Char.isDigit
    if ds.isEmpty then none
    else some (if sr.1 then -(digitsToNat ds : ℤ) else (digitsToNat ds : ℤ), rest3)
  | cs => some (0, cs)

/-- Modelled from SQLite's text-to-number conversion applied by REAL
column affinity: optional surrounding ASCII whitespace, an optional
sign, a decimal mantissa, an optional exponent, with the whole string
consumed.  Returns the value, or `none` when the text does not look
like a numeric literal (the TEXT is then stored unchanged). -/
def asNumLiteral (s : String) : Option ℚ :=
  let cs := s.data.dropWhile isSpaceChar
  let sr := parseSign cs
  match parseMantissa sr.2 with
  | none => none
  | some mc =>
    match parseExponent mc.2 with
    | none => none
    | some ec =>
      if ec.2.dropWhile isSpaceChar = [] then
        some ((if sr.1 then -mc.1 else mc.1) * (10 : ℚ) ^ ec.1)
      else none

/-- Binding one JSON value into the `value REAL NOT NULL` column.
`none` models the INSERT raising: `null` violates NOT NULL
(IntegrityError), arrays and objects are unsupported bind types
(InterfaceError).  A boolean binds as the integer 1/0 and the REAL
affinity turns it into 1.0/0.0; a numeric-literal string is converted
to REAL by the affinity; any other string is stored as TEXT as
given. -/
def bindValue : JValue → Option StoredValue
  | JValue.num q => some (StoredValue.real q)
  | JValue.str s =>
    match asNumLiteral s with
    | some q => some (StoredValue.real q)
    | none => some (StoredValue.text s)
  | JValue.bool b => some (StoredValue.real (if b then 1 else 0))
  | JValue.null => none
  | JValue.arr => none
  | JValue.obj => none

/-- One row of the `telemetry` table (id / created_at omitted: the
implicit rowid order is the position in the store list). -/
structure Row where
  timestamp : String
  signal_name : String
  value : StoredValue
deriving DecidableEq, Repr

/-- The telemetry table, in insertion (rowid) order. -/
abbrev Store := List Row

/-- Byte-wise lexicographic comparison of character lists, as SQLite's
BINARY collation compares TEXT values. -/
def charListLe : List Char → List Char → Bool
  | [], _ => true
  | _ :: _, [] => false
  | a :: as, b :: bs => if a < b then true else if b < a then false else charListLe as bs

/-- The SQLite TEXT comparison `a <= b` used by `WHERE timestamp >= ?`
and `ORDER BY timestamp ASC`. -/
def strLe (a b : String) : Bool := charListLe a.data b.data

/-- Row comparison used by `ORDER BY timestamp ASC`. -/
def rowLe (a b : Row) : Bool := strLe a.timestamp b.timestamp

/-- Insert `a` into `l` before the first element it is `le`-below-or-tied
with.  Auxiliary for `sortLe`. -/
def insertLe {α : Type} (le : α → α → Bool) (a : α) : List α → List α
  | [] => [a]
  | b :: l => if le a b then a :: b :: l else b :: insertLe le a l

/-- A stable insertion sort, modelling `ORDER BY` over an index scan:
elements comparing equal keep their original (rowid) order. -/
def sortLe {α : Type} (le : α → α → Bool) : List α → List α
  | [] => []
  | a :: l => insertLe le a (sortLe le l)

/-- The rows the INSERT loop of `store_telemetry` produces, in
iteration order of the mapping; `none` when some bind raises. -/
def bindRows (timestamp : String) : List (String × JValue) → Option (List Row)
  | [] => some []
  | (n, v) :: rest =>
    match bindValue v with
    | some sv => (bindRows timestamp rest).map (fun rows => ⟨timestamp, n, sv⟩ :: rows)
    | none => none

/-- `store_telemetry(timestamp, signals)`: one INSERT per
`(signal_name, value)` pair, in iteration order of the mapping, all
with the same timestamp, appended to the table.  If any INSERT raises
(unbindable value), the exception propagates, `commit` never runs and
closing the connection rolls the transaction back: nothing is
persisted and the result is `none`. -/
def store_telemetry (timestamp : String) (signals : List (String × JValue)) (db : Store) :
    Option Store :=
  (bindRows timestamp signals).map (fun rows => db ++ rows)

/-- The row set produced by
`SELECT ... WHERE timestamp >= cutoff ORDER BY timestamp ASC`:
filter by the cutoff, then sort ascending by timestamp.  SQLite scans
the `idx_timestamp` index, whose entries with equal key are ordered by
rowid, so ties keep insertion order: a stable sort. -/
def queryRows (cutoff : String) (db : Store) : List Row :=
  sortLe rowLe (db.filter (fun r => strLe cutoff r.timestamp))

/-- One element of a per-signal series in the query response:
the dict written by the grouping loop for each row. -/
structure Point where
  timestamp : String
  value : StoredValue
deriving DecidableEq, Repr

/-- The dict entry built from a row by the grouping loop. -/
def rowPoint (r : Row) : Point := ⟨r.timestamp, r.value⟩

/-- One iteration of the grouping loop of `get_recent_telemetry`:
if the signal name is not yet a key, add it (at the end, as Python
dict insertion does); then append the row's point to its series. -/
def addRow (data : List (String × List Point)) (r : Row) : List (String × List Point) :=
  if data.any (fun p => p.1 == r.signal_name) then
    data.map (fun p => if p.1 == r.signal_name then (p.1, p.2 ++ [rowPoint r]) else p)
  else
    data ++ [(r.signal_name, [rowPoint r])]

/-- The grouping loop of `get_recent_telemetry`, starting from the
empty dict and folding over the selected rows in SELECT order. -/
def groupBySignal (rows : List Row) : List (String × List Point) :=
  rows.foldl addRow []

/-- `get_recent_telemetry`: select the rows at or after the cutoff in
ascending timestamp order, then group them by signal name. -/
def get_recent_telemetry (cutoff : String) (db : Store) : List (String × List Point) :=
  groupBySignal (queryRows cutoff db)

/-- `SELECT DISTINCT signal_name FROM telemetry ORDER BY signal_name`:
the distinct signal names, sorted. -/
def list_signals (db : Store) : List String :=
  sortLe strLe ((db.map Row.signal_name).dedup)

/-- The JSON body of `POST /api/telemetry`, as read by the handler:
`payload.get` returns `none` for a missing field. -/
structure Payload where
  timestamp : Option String
  signals : Option (List (String × JValue))
deriving DecidableEq, Repr

/-- The three responses of the ingest endpoint: 200 success,
400 invalid payload, 500 internal error. -/
inductive IngestResult where
  | success
  | invalidRequest
  | internalError
deriving DecidableEq, Repr

/-- The full effect of one `POST /api/telemetry` call: the response,
the resulting table, and the `telemetry_update` events emitted. -/
structure IngestOutcome where
  result : IngestResult
  db : Store
  broadcasts : List Payload
deriving DecidableEq, Repr

/-- `receive_telemetry`:
`timestamp = payload.get('timestamp')`, `signals = payload.get('signals', {})`;
reject with 400 when `not timestamp or not signals` (missing or empty);
otherwise store, then emit the original payload, then return 200.
A store failure — an environmental I/O failure (`storeFails`) or an
INSERT raising on an unbindable value — hits the `except` branch:
500, nothing committed, no event emitted. -/
def receive_telemetry (storeFails : Bool) (p : Payload) (db : Store) : IngestOutcome :=
  let ts := p.timestamp.getD ""
  let sigs := p.signals.getD []
  if ts = "" ∨ sigs = [] then
    ⟨IngestResult.invalidRequest, db, []⟩
  else if storeFails then
    ⟨IngestResult.internalError, db, []⟩
  else
    match store_telemetry ts sigs db with
    | some db2 => ⟨IngestResult.success, db2, [p]⟩
    | none => ⟨IngestResult.internalError, db, []⟩

/-- `GET /api/telemetry`: read-only handler; it runs a SELECT and
leaves the table as it was. -/
def get_telemetry_handler (cutoff : String) (db : Store) :
    List (String × List Point) × Store :=
  (get_recent_telemetry cutoff db, db)

/-- `GET /api/signals`: read-only handler; it runs a SELECT and leaves
the table as it was. -/
def get_signals_handler (db : Store) : List String × Store :=
  (list_signals db, db)

/-- The key order a Python dict produces: each name is appended the
first time it is seen.  Used to state the key order of the grouped
query response. -/
def firstSeen (names : List String) : List String :=
  names.foldl (fun ks n => if n ∈ ks then ks else ks ++ [n]) []

/-! Order properties of the SQLite TEXT comparison. -/

theorem charListLe_refl (l : List Char) : charListLe l l = true := by
  induction l with
  | nil => rfl
  | cons a as ih => simp [charListLe, ih]

theorem charListLe_trans {a b c : List Char} (h1 : charListLe a b = true)
    (h2 : charListLe b c = true) : charListLe a c = true := by
  induction a generalizing b c with
  | nil => rfl
  | cons x xs ih =>
    cases b with
    | nil => simp [charListLe] at h1
    | cons y ys =>
      cases c with
      | nil => simp [charListLe] at h2
      | cons z zs =>
        simp only [charListLe] at h1 h2 ⊢
        rcases lt_trichotomy x y with hxy | hxy | hxy
        · rcases lt_trichotomy y z with hyz | hyz | hyz
          · simp [lt_trans hxy hyz]
          · subst hyz; simp [hxy]
          · simp [asymm hyz, hyz] at h2
        · subst hxy
          rcases lt_trichotomy x z with hyz | hyz | hyz
          · simp [hyz]
          · subst hyz
            simp only [lt_self_iff_false, if_false] at h1 h2 ⊢
            exact ih h1 h2
          · simp [asymm hyz, hyz] at h2
        · simp [asymm hxy, hxy] at h1

theorem charListLe_total (a b : List Char) :
    charListLe a b = true ∨ charListLe b a = true := by
  induction a generalizing b with
  | nil => exact Or.inl rfl
  | cons x xs ih =>
    cases b with
    | nil => exact Or.inr rfl
    | cons y ys =>
      rcases lt_trichotomy x y with h | h | h
      · exact Or.inl (by simp [charListLe, h])
      · subst h
        rcases ih ys with h2 | h2
        · exact Or.inl (by simp [charListLe, h2])
        · exact Or.inr (by simp [charListLe, h2])
      · exact Or.inr (by simp [charListLe, h])

theorem strLe_refl (s : String) : strLe s s = true := charListLe_refl s.data

theorem strLe_trans {a b c : String} (h1 : strLe a b = true) (h2 : strLe b c = true) :
    strLe a c = true := charListLe_trans h1 h2

theorem strLe_total (a b : String) : (strLe a b || strLe b a) = true := by
  rcases charListLe_total a.data b.data with h | h <;> simp [strLe, h]

theorem rowLe_trans (a b c : Row) (h1 : rowLe a b = true) (h2 : rowLe b c = true) :
    rowLe a c = true := strLe_trans h1 h2

theorem rowLe_total (a b : Row) : (rowLe a b || rowLe b a) = true := strLe_total _ _

/-! Properties of the stable sort `sortLe`. -/

theorem mem_insertLe {α : Type} (le : α → α → Bool) (a x : α) (l : List α) :
    x ∈ insertLe le a l ↔ x = a ∨ x ∈ l := by
  induction l with
  | nil => simp [insertLe]
  | cons b t ih =>
    simp only [insertLe]
    by_cases h : le a b = true
    · rw [if_pos h]
      simp [List.mem_cons]
    · rw [if_neg h]
      simp only [List.mem_cons, ih]
      tauto

theorem perm_insertLe {α : Type} (le : α → α → Bool) (a : α) (l : List α) :
    (insertLe le a l).Perm (a :: l) := by
  induction l with
  | nil => exact List.Perm.refl _
  | cons b t ih =>
    simp only [insertLe]
    by_cases h : le a b = true
    · rw [if_pos h]
    · rw [if_neg h]
      exact (ih.cons b).trans (List.Perm.swap a b t)

theorem perm_sortLe {α : Type} (le : α → α → Bool) (l : List α) :
    (sortLe le l).Perm l := by
  induction l with
  | nil => exact List.Perm.refl _
  | cons a t ih => exact (perm_insertLe le a (sortLe le t)).trans (ih.cons a)

theorem sorted_insertLe {α : Type} (le : α → α → Bool)
    (htrans : ∀ a b c, le a b = true → le b c = true → le a c = true)
    (htotal : ∀ a b, (le a b || le b a) = true)
    (a : α) (l : List α) (hl : l.Pairwise (fun x y => le x y = true)) :
    (insertLe le a l).Pairwise (fun x y => le x y = true) := by
  induction l with
  | nil => simp [insertLe]
  | cons b t ih =>
    simp only [insertLe]
    rcases List.pairwise_cons.mp hl with ⟨hb, ht⟩
    by_cases h : le a b = true
    · rw [if_pos h]
      refine List.pairwise_cons.mpr ⟨?_, hl⟩
      intro x hx
      rcases List.mem_cons.mp hx with rfl | hx
      · exact h
      · exact htrans a b x h (hb x hx)
    · rw [if_neg h]
      have hba : le b a = true := by
        have h0 := htotal a b
        rw [Bool.or_eq_true] at h0
        rcases h0 with h1 | h1
        · exact absurd h1 h
        · exact h1
      refine List.pairwise_cons.mpr ⟨?_, ih ht⟩
      intro x hx
      rcases (mem_insertLe le a x t).mp hx with rfl | hx
      · exact hba
      · exact hb x hx

theorem sorted_sortLe {α : Type} (le : α → α → Bool)
    (htrans : ∀ a b c, le a b = true → le b c = true → le a c = true)
    (htotal : ∀ a b, (le a b || le b a) = true) (l : List α) :
    (sortLe le l).Pairwise (fun x y => le x y = true) := by
  induction l with
  | nil => simp [sortLe]
  | cons a t ih => exact sorted_insertLe le htrans htotal a _ ih

/-- Stability of `sortLe`: filtering by a predicate closed downward
under ties-or-above (every element strictly below a matching one does
not match) commutes with sorting, so tied elements keep their input
order. -/
theorem filter_insertLe {α : Type} (le : α → α → Bool) (p : α → Bool)
    (hpl : ∀ a b, p a = true → le a b = false → p b = false)
    (a : α) (l : List α) :
    (insertLe le a l).filter p = if p a then a :: l.filter p else l.filter p := by
  induction l with
  | nil => by_cases hpa : p a = true <;> simp [insertLe, hpa]
  | cons b t ih =>
    simp only [insertLe]
    by_cases h : le a b = true
    · rw [if_pos h]
      by_cases hpa : p a = true <;> simp [List.filter_cons, hpa]
    · rw [if_neg h]
      have hle : le a b = false := by
        cases hle2 : le a b
        · rfl
        · exact absurd hle2 h
      by_cases hpa : p a = true
      · have hpb : p b = false := hpl a b hpa hle
        simp [List.filter_cons, hpb, hpa, ih]
      · simp [List.filter_cons, hpa, ih]

theorem filter_sortLe {α : Type} (le : α → α → Bool) (p : α → Bool)
    (hpl : ∀ a b, p a = true → le a b = false → p b = false) (l : List α) :
    (sortLe le l).filter p = l.filter p := by
  induction l with
  | nil => rfl
  | cons a t ih =>
    simp only [sortLe]
    rw [filter_insertLe le p hpl a (sortLe le t), ih, List.filter_cons]

/-! Association-list lemmas for the grouping loop. -/

theorem lookup_cons_self (a : String) (v : List Point) (l : List (String × List Point)) :
    ((a, v) :: l).lookup a = some v := by
  simp [List.lookup]

theorem lookup_cons_ne (k a : String) (v : List Point) (l : List (String × List Point))
    (h : k ≠ a) : ((a, v) :: l).lookup k = l.lookup k := by
  have hb : (k == a) = false := by simp [h]
  simp [List.lookup, hb]

theorem lookup_map_update (n k : String) (pt : Point) (l : List (String × List Point)) :
    (l.map (fun p => if p.1 == n then (p.1, p.2 ++ [pt]) else p)).lookup k =
      if k = n then (l.lookup k).map (fun v => v ++ [pt]) else l.lookup k := by
  induction l with
  | nil => by_cases h : k = n <;> simp [List.lookup, h]
  | cons hd tl ih =>
    obtain ⟨a, v⟩ := hd
    simp only [List.map_cons]
    by_cases han : a = n
    · rw [if_pos (show ((a == n) = true) by simp [han])]
      by_cases hka : k = a
      · subst hka
        rw [lookup_cons_self, if_pos han, lookup_cons_self]
        rfl
      · rw [lookup_cons_ne _ _ _ _ hka, lookup_cons_ne _ _ _ _ hka, ih]
    · rw [if_neg (show ¬ ((a == n) = true) by simp [han])]
      by_cases hka : k = a
      · subst hka
        rw [lookup_cons_self, if_neg han, lookup_cons_self]
      · rw [lookup_cons_ne _ _ _ _ hka, lookup_cons_ne _ _ _ _ hka, ih]

theorem any_key_eq_lookup_isSome (l : List (String × List Point)) (n : String) :
    l.any (fun p => p.1 == n) = (l.lookup n).isSome := by
  induction l with
  | nil => rfl
  | cons hd tl ih =>
    obtain ⟨a, v⟩ := hd
    by_cases h : a = n
    · subst h
      simp [List.any_cons, lookup_cons_self]
    · rw [List.any_cons, lookup_cons_ne _ _ _ _ (Ne.symm h), ← ih]
      simp [h]

theorem lookup_append (l1 l2 : List (String × List Point)) (k : String) :
    (l1 ++ l2).lookup k = (l1.lookup k).or (l2.lookup k) := by
  induction l1 with
  | nil => rfl
  | cons hd tl ih =>
    obtain ⟨a, v⟩ := hd
    by_cases h : k = a
    · subst h
      rw [List.cons_append, lookup_cons_self, lookup_cons_self]
      rfl
    · rw [List.cons_append, lookup_cons_ne _ _ _ _ h, lookup_cons_ne _ _ _ _ h, ih]

theorem lookup_addRow_eq (data : List (String × List Point)) (r : Row) :
    (addRow data r).lookup r.signal_name =
      some ((data.lookup r.signal_name).getD [] ++ [rowPoint r]) := by
  unfold addRow
  by_cases h : data.any (fun p => p.1 == r.signal_name) = true
  · rw [if_pos h, lookup_map_update, if_pos rfl]
    rw [any_key_eq_lookup_isSome] at h
    obtain ⟨v, hv⟩ := Option.isSome_iff_exists.mp h
    rw [hv]; rfl
  · rw [if_neg h]
    have hnone : data.lookup r.signal_name = none := by
      rw [any_key_eq_lookup_isSome] at h
      cases hval : data.lookup r.signal_name with
      | none => rfl
      | some v => rw [hval] at h; simp at h
    rw [lookup_append, hnone, lookup_cons_self]
    rfl

theorem lookup_addRow_ne (data : List (String × List Point)) (r : Row) (k : String)
    (hk : k ≠ r.signal_name) : (addRow data r).lookup k = data.lookup k := by
  unfold addRow
  by_cases h : data.any (fun p => p.1 == r.signal_name) = true
  · rw [if_pos h, lookup_map_update, if_neg hk]
  · rw [if_neg h, lookup_append, lookup_cons_ne _ _ _ _ hk]
    cases data.lookup k <;> rfl

theorem lookup_foldl_addRow_some (rows : List Row) (k : String) :
    ∀ (acc : List (String × List Point)) (ps0 : List Point),
      acc.lookup k = some ps0 →
      (rows.foldl addRow acc).lookup k =
        some (ps0 ++ (rows.filter (fun r => r.signal_name == k)).map rowPoint) := by
  induction rows with
  | nil => intro acc ps0 h; simpa using h
  | cons r rest ih =>
    intro acc ps0 h
    simp only [List.foldl_cons]
    by_cases hr : r.signal_name = k
    · subst hr
      have h2 : (addRow acc r).lookup r.signal_name = some (ps0 ++ [rowPoint r]) := by
        rw [lookup_addRow_eq, h]; rfl
      rw [ih (addRow acc r) (ps0 ++ [rowPoint r]) h2]
      simp
    · have h2 : (addRow acc r).lookup k = some ps0 := by
        rw [lookup_addRow_ne acc r k (fun he => hr he.symm)]; exact h
      rw [ih (addRow acc r) ps0 h2]
      have : (r.signal_name == k) = false := by simp [hr]
      simp [List.filter_cons, this]

theorem lookup_foldl_addRow_none (rows : List Row) (k : String) :
    ∀ (acc : List (String × List Point)), acc.lookup k = none →
      (rows.foldl addRow acc).lookup k =
        if (rows.filter (fun r => r.signal_name == k)) = [] then none
        else some ((rows.filter (fun r => r.signal_name == k)).map rowPoint) := by
  induction rows with
  | nil => intro acc h; simpa using h
  | cons r rest ih =>
    intro acc h
    simp only [List.foldl_cons]
    by_cases hr : r.signal_name = k
    · subst hr
      have h2 : (addRow acc r).lookup r.signal_name = some [rowPoint r] := by
        rw [lookup_addRow_eq, h]; rfl
      rw [lookup_foldl_addRow_some rest r.signal_name (addRow acc r) [rowPoint r] h2]
      simp [List.filter_cons]
    · have h2 : (addRow acc r).lookup k = none := by
        rw [lookup_addRow_ne acc r k (fun he => hr he.symm)]; exact h
      rw [ih (addRow acc r) h2]
      have : (r.signal_name == k) = false := by simp [hr]
      simp [List.filter_cons, this]

theorem lookup_groupBySignal (rows : List Row) (k : String) :
    (groupBySignal rows).lookup k =
      if (rows.filter (fun r => r.signal_name == k)) = [] then none
      else some ((rows.filter (fun r => r.signal_name == k)).map rowPoint) :=
  lookup_foldl_addRow_none rows k [] rfl

/-! Key order of the grouping loop: keys appear in first-seen order. -/

theorem map_fst_addRow (data : List (String × List Point)) (r : Row) :
    (addRow data r).map Prod.fst =
      if r.signal_name ∈ data.map Prod.fst then data.map Prod.fst
      else data.map Prod.fst ++ [r.signal_name] := by
  unfold addRow
  by_cases h : data.any (fun p => p.1 == r.signal_name) = true
  · have hmem : r.signal_name ∈ data.map Prod.fst := by
      rw [List.any_eq_true] at h
      obtain ⟨p, hp, hpe⟩ := h
      exact List.mem_map.mpr ⟨p, hp, by simpa using hpe⟩
    rw [if_pos h, if_pos hmem, List.map_map]
    apply List.map_congr_left
    intro p hp
    by_cases hc : p.1 == r.signal_name <;> simp [Function.comp, hc]
  · have hmem : r.signal_name ∉ data.map Prod.fst := by
      intro hc
      apply h
      rw [List.any_eq_true]
      obtain ⟨p, hp, hpe⟩ := List.mem_map.mp hc
      exact ⟨p, hp, by simp [hpe]⟩
    rw [if_neg h, if_neg hmem]
    simp

theorem map_fst_foldl_addRow (rows : List Row) :
    ∀ acc : List (String × List Point),
      (rows.foldl addRow acc).map Prod.fst =
        (rows.map Row.signal_name).foldl
          (fun ks n => if n ∈ ks then ks else ks ++ [n]) (acc.map Prod.fst) := by
  induction rows with
  | nil => intro acc; rfl
  | cons r rest ih =>
    intro acc
    simp only [List.foldl_cons, List.map_cons]
    rw [ih (addRow acc r), map_fst_addRow]

theorem map_fst_groupBySignal (rows : List Row) :
    (groupBySignal rows).map Prod.fst = firstSeen (rows.map Row.signal_name) :=
  map_fst_foldl_addRow rows []

theorem mem_foldl_insKey (names : List String) (k : String) :
    ∀ ks : List String,
      (k ∈ names.foldl (fun ks n => if n ∈ ks then ks else ks ++ [n]) ks) ↔
        (k ∈ ks ∨ k ∈ names) := by
  induction names with
  | nil => intro ks; simp
  | cons n rest ih =>
    intro ks
    simp only [List.foldl_cons]
    by_cases h : n ∈ ks
    · rw [if_pos h, ih]
      constructor
      · rintro (h1 | h1)
        · exact Or.inl h1
        · exact Or.inr (List.mem_cons_of_mem _ h1)
      · rintro (h1 | h1)
        · exact Or.inl h1
        · rcases List.mem_cons.mp h1 with h2 | h2
          · exact Or.inl (h2 ▸ h)
          · exact Or.inr h2
    · rw [if_neg h, ih]
      simp only [List.mem_append, List.mem_singleton, List.mem_cons]
      tauto

theorem mem_firstSeen (names : List String) (k : String) :
    k ∈ firstSeen names ↔ k ∈ names := by
  unfold firstSeen
  rw [mem_foldl_insKey]
  simp

theorem nodup_foldl_insKey (names : List String) :
    ∀ ks : List String, ks.Nodup →
      (names.foldl (fun ks n => if n ∈ ks then ks else ks ++ [n]) ks).Nodup := by
  induction names with
  | nil => intro ks h; exact h
  | cons n rest ih =>
    intro ks h
    simp only [List.foldl_cons]
    by_cases hn : n ∈ ks
    · rw [if_pos hn]; exact ih ks h
    · rw [if_neg hn]
      apply ih
      simp [List.nodup_append, h, hn]

theorem nodup_firstSeen (names : List String) : (firstSeen names).Nodup :=
  nodup_foldl_insKey names [] (by simp)

/-! Facts about the SELECT of `get_recent_telemetry`. -/

theorem queryRows_perm (db : Store) (cutoff : String) :
    (queryRows cutoff db).Perm (db.filter (fun r => strLe cutoff r.timestamp)) :=
  perm_sortLe _ _

theorem queryRows_sorted (db : Store) (cutoff : String) :
    (queryRows cutoff db).Pairwise (fun a b => rowLe a b = true) :=
  sorted_sortLe rowLe rowLe_trans rowLe_total _

theorem tie_pred_closed (t : String) :
    ∀ a b : Row, (a.timestamp == t) = true → rowLe a b = false →
      (b.timestamp == t) = false := by
  intro a b hpa hle
  cases hval : (b.timestamp == t) with
  | false => rfl
  | true =>
    rw [beq_iff_eq] at hpa hval
    unfold rowLe at hle
    rw [hpa, hval, strLe_refl] at hle
    simp at hle

theorem queryRows_tie (db : Store) (cutoff : String) (t : String) :
    (queryRows cutoff db).filter (fun r => r.timestamp == t) =
      db.filter (fun r => (r.timestamp == t) && strLe cutoff r.timestamp) := by
  rw [queryRows, filter_sortLe rowLe _ (tie_pred_closed t), List.filter_filter]

theorem mem_queryRows {r : Row} {db : Store} {cutoff : String} :
    r ∈ queryRows cutoff db ↔ r ∈ db ∧ strLe cutoff r.timestamp = true := by
  rw [(queryRows_perm db cutoff).mem_iff, List.mem_filter]

theorem sortLe_of_const_ts (rows : List Row) (t : String)
    (h : ∀ r ∈ rows, r.timestamp = t) : sortLe rowLe rows = rows := by
  have h1 : rows.filter (fun r => r.timestamp == t) = rows :=
    List.filter_eq_self.mpr (by intro a ha; simpa using h a ha)
  have h2 : (sortLe rowLe rows).filter (fun r => r.timestamp == t) = sortLe rowLe rows :=
    List.filter_eq_self.mpr (by
      intro a ha
      have hmem := (perm_sortLe rowLe rows).mem_iff.mp ha
      simpa using h a hmem)
  have h3 := filter_sortLe rowLe (fun r => r.timestamp == t) (tie_pred_closed t) rows
  rw [h2, h1] at h3
  exact h3

theorem filter_key_of_nodup {β : Type} {sigs : List (String × β)}
    (hnodup : (sigs.map Prod.fst).Nodup) {p : String × β} (hp : p ∈ sigs) :
    sigs.filter (fun q => q.1 == p.1) = [p] := by
  induction sigs with
  | nil => cases hp
  | cons a t ih =>
    rw [List.map_cons] at hnodup
    have hn := List.nodup_cons.mp hnodup
    rcases List.mem_cons.mp hp with rfl | hp2
    · rw [List.filter_cons_of_pos (by simp)]
      have hnil : t.filter (fun q => q.1 == p.1) = [] := by
        rw [List.filter_eq_nil_iff]
        intro q hq hc
        rw [beq_iff_eq] at hc
        exact hn.1 (hc ▸ List.mem_map.mpr ⟨q, hq, rfl⟩)
      rw [hnil]
    · have hne : ¬ ((a.1 == p.1) = true) := by
        rw [beq_iff_eq]
        intro hc
        exact hn.1 (hc ▸ List.mem_map.mpr ⟨p, hp2, rfl⟩)
      rw [List.filter_cons, if_neg hne]
      exact ih hn.2 hp2

/-- Claim C4: for every cutoff, the store query returns exactly the
stored rows whose timestamp is at or after the cutoff (the same
multiset), ordered ascending by timestamp, and rows of equal timestamp
appear in insertion order: for each timestamp value `t`, the result
restricted to `t` equals the store restricted to `t` and the cutoff,
in store order. -/
theorem query_rows_filtered_sorted_stable (db : Store) (cutoff : String) :
    (queryRows cutoff db).Perm (db.filter (fun r => strLe cutoff r.timestamp)) ∧
    (queryRows cutoff db).Pairwise (fun a b => rowLe a b = true) ∧
    (∀ t : String, (queryRows cutoff db).filter (fun r => r.timestamp == t) =
      db.filter (fun r => (r.timestamp == t) && strLe cutoff r.timestamp)) :=
  ⟨queryRows_perm db cutoff, queryRows_sorted db cutoff, queryRows_tie db cutoff⟩

/-- Claim C5: the historical query groups the matching rows by signal
name: keys appear in first-occurrence order and are distinct, the
series under key `k` is exactly the matching rows in query (ascending
timestamp) order, a key is present exactly when it has a matching row,
and every present series is non-empty and ascending by timestamp. -/
theorem historical_groups_by_signal (db : Store) (cutoff : String) :
    ((get_recent_telemetry cutoff db).map Prod.fst).Nodup ∧
    (get_recent_telemetry cutoff db).map Prod.fst =
      firstSeen ((queryRows cutoff db).map Row.signal_name) ∧
    (∀ k : String, (get_recent_telemetry cutoff db).lookup k =
      if (queryRows cutoff db).filter (fun r => r.signal_name == k) = [] then none
      else some (((queryRows cutoff db).filter (fun r => r.signal_name == k)).map rowPoint)) ∧
    (∀ k : String, (k ∈ (get_recent_telemetry cutoff db).map Prod.fst ↔
      ∃ r ∈ queryRows cutoff db, r.signal_name = k)) ∧
    (∀ (k : String) (ps : List Point),
      (get_recent_telemetry cutoff db).lookup k = some ps →
      ps ≠ [] ∧ (ps.map Point.timestamp).Pairwise (fun a b => strLe a b = true)) := by
  refine ⟨?_, ?_, ?_, ?_, ?_⟩
  · rw [get_recent_telemetry, map_fst_groupBySignal]
    exact nodup_firstSeen _
  · rw [get_recent_telemetry, map_fst_groupBySignal]
  · intro k
    rw [get_recent_telemetry, lookup_groupBySignal]
  · intro k
    rw [get_recent_telemetry, map_fst_groupBySignal, mem_firstSeen, List.mem_map]
  · intro k ps hps
    rw [get_recent_telemetry, lookup_groupBySignal] at hps
    by_cases hf : (queryRows cutoff db).filter (fun r => r.signal_name == k) = []
    · rw [if_pos hf] at hps
      exact absurd hps (by simp)
    · rw [if_neg hf] at hps
      have hval := Option.some.inj hps
      subst hval
      constructor
      · intro hc
        exact hf (by simpa using hc)
      · have hs := (queryRows_sorted db cutoff).filter (fun r => r.signal_name == k)
        rw [List.map_map, List.pairwise_map]
        exact hs.imp (fun h => h)

/-- Witness for C5: at a concrete store and cutoff, the series under
key `a` is non-empty and ascending by timestamp. -/
theorem historical_groups_by_signal_witness :
    ([⟨"2024-01-01T01:00:00", StoredValue.real 2⟩, ⟨"2024-01-01T02:00:00", StoredValue.real 3⟩] :
        List Point) ≠ [] ∧
    (([⟨"2024-01-01T01:00:00", StoredValue.real 2⟩, ⟨"2024-01-01T02:00:00", StoredValue.real 3⟩] :
        List Point).map Point.timestamp).Pairwise (fun a b => strLe a b = true) :=
  (historical_groups_by_signal
      [⟨"2024-01-01T02:00:00", "a", StoredValue.real 3⟩,
       ⟨"2024-01-01T01:00:00", "a", StoredValue.real 2⟩]
      "2024-01-01T00:00:00").2.2.2.2 "a"
    [⟨"2024-01-01T01:00:00", StoredValue.real 2⟩, ⟨"2024-01-01T02:00:00", StoredValue.real 3⟩]
    (by decide)

/-- Claim C3: a request whose timestamp is missing or empty, or whose
signals mapping is missing or empty, is answered 400 (InvalidRequest),
with the store unchanged and no broadcast, regardless of whether the
store would fail. -/
theorem invalid_payload_rejected (storeFails : Bool) (p : Payload) (db : Store)
    (h : p.timestamp = none ∨ p.timestamp = some "" ∨
      p.signals = none ∨ p.signals = some []) :
    receive_telemetry storeFails p db = ⟨IngestResult.invalidRequest, db, []⟩ := by
  unfold receive_telemetry
  rcases h with h | h | h | h <;> rw [h] <;> simp

/-- Witness for C3: the spec's own example, a payload with signals but
no timestamp, is rejected and the store stays empty. -/
theorem invalid_payload_rejected_witness :
    receive_telemetry false ⟨none, some [("a", JValue.num 1)]⟩ [] =
      ⟨IngestResult.invalidRequest, [], []⟩ :=
  invalid_payload_rejected false ⟨none, some [("a", JValue.num 1)]⟩ [] (Or.inl rfl)

/-- Counterexample to claim C2 as stated: `receive_telemetry` performs
no numeric-value validation and no timestamp parsing.  A request whose
signal value is a non-numeric string and whose timestamp is not a
parseable date-time is not rejected: it returns success and a row is
written (the text, not being a numeric literal, is stored unchanged),
whereas the claim requires InvalidRequest with the store unchanged. -/
theorem no_validation_counterexample :
    (receive_telemetry false
        ⟨some "not-a-date", some [("a", JValue.str "not-a-number")]⟩ []).result
      = IngestResult.success ∧
    (receive_telemetry false
        ⟨some "not-a-date", some [("a", JValue.str "not-a-number")]⟩ []).db
      = [⟨"not-a-date", "a", StoredValue.text "not-a-number"⟩] :=
  ⟨rfl, rfl⟩

/-- Claim C2 (amended): the ingest boundary never parses the timestamp
and never type-checks values, so a request with a non-numeric value or
an unparseable timestamp is never rejected with InvalidRequest (400).
With non-empty timestamp and signals: when every value binds into the
REAL column the request succeeds and the bound rows are written — a
string that is not a numeric literal is stored as TEXT unchanged,
while a numeric-literal string is coerced to REAL by the column
affinity; when some value cannot be bound (JSON null, array, object)
the INSERT raises and the request is answered InternalError (500)
with nothing committed and nothing broadcast. -/
theorem no_validation_at_ingest (storeFails : Bool) (p : Payload) (db : Store)
    (ts : String) (sigs : List (String × JValue))
    (h1 : p.timestamp = some ts) (h2 : ts ≠ "")
    (h3 : p.signals = some sigs) (h4 : sigs ≠ []) :
    (receive_telemetry storeFails p db).result ≠ IngestResult.invalidRequest ∧
    (∀ db2 : Store, store_telemetry ts sigs db = some db2 →
      receive_telemetry false p db = ⟨IngestResult.success, db2, [p]⟩) ∧
    (store_telemetry ts sigs db = none →
      receive_telemetry false p db = ⟨IngestResult.internalError, db, []⟩) ∧
    (∀ s : String, asNumLiteral s = none →
      bindValue (JValue.str s) = some (StoredValue.text s)) ∧
    (∀ (s : String) (q : ℚ), asNumLiteral s = some q →
      bindValue (JValue.str s) = some (StoredValue.real q)) ∧
    bindValue JValue.null = none ∧ bindValue JValue.arr = none ∧
    bindValue JValue.obj = none := by
  have hcond : ¬ (p.timestamp.getD "" = "" ∨ p.signals.getD [] = []) := by
    rw [h1, h3]
    simp [h2, h4]
  refine ⟨?_, ?_, ?_, ?_, ?_, rfl, rfl, rfl⟩
  · unfold receive_telemetry
    rw [if_neg hcond]
    cases storeFails
    · cases hst : store_telemetry (p.timestamp.getD "") (p.signals.getD []) db with
      | none => simp [hst]
      | some db2 => simp [hst]
    · simp
  · intro db2 hst
    unfold receive_telemetry
    rw [if_neg hcond]
    simp [h1, h3, hst]
  · intro hst
    unfold receive_telemetry
    rw [if_neg hcond]
    simp [h1, h3, hst]
  · intro s h
    simp [bindValue, h]
  · intro s q h
    simp [bindValue, h]

/-- Witness for the amended C2: a non-numeric string value under an
unparseable timestamp passes validation, is stored as TEXT unchanged,
and the request is acknowledged and broadcast. -/
theorem no_validation_at_ingest_witness :
    receive_telemetry false ⟨some "not-a-date", some [("a", JValue.str "oops")]⟩ [] =
      ⟨IngestResult.success, [⟨"not-a-date", "a", StoredValue.text "oops"⟩],
        [⟨some "not-a-date", some [("a", JValue.str "oops")]⟩]⟩ :=
  (no_validation_at_ingest false ⟨some "not-a-date", some [("a", JValue.str "oops")]⟩ []
      "not-a-date" [("a", JValue.str "oops")] rfl (by decide) rfl (by decide)).2.1
    [⟨"not-a-date", "a", StoredValue.text "oops"⟩] (by decide)

/-- Claim C6: exactly one broadcast event is emitted iff the ingest
call succeeds; on success the event is the ingested payload and the
resulting table is exactly what the store append produced from that
payload; a failed ingest (validation failure or store failure) emits
nothing and the table is unchanged. -/
theorem broadcast_iff_success (storeFails : Bool) (p : Payload) (db : Store) :
    ((receive_telemetry storeFails p db).broadcasts.length = 1 ↔
      (receive_telemetry storeFails p db).result = IngestResult.success) ∧
    ((receive_telemetry storeFails p db).result = IngestResult.success →
      (receive_telemetry storeFails p db).broadcasts = [p] ∧
      store_telemetry (p.timestamp.getD "") (p.signals.getD []) db =
        some ((receive_telemetry storeFails p db).db)) ∧
    ((receive_telemetry storeFails p db).result ≠ IngestResult.success →
      (receive_telemetry storeFails p db).broadcasts = [] ∧
      (receive_telemetry storeFails p db).db = db) := by
  unfold receive_telemetry
  by_cases h1 : p.timestamp.getD "" = "" ∨ p.signals.getD [] = []
  · rw [if_pos h1]
    simp
  · rw [if_neg h1]
    cases storeFails
    · cases hst : store_telemetry (p.timestamp.getD "") (p.signals.getD []) db with
      | none => simp [hst]
      | some db2 => simp [hst]
    · simp

/-- Witness for C6: a concrete successful ingest emits exactly its own
payload. -/
theorem broadcast_iff_success_witness :
    (receive_telemetry false ⟨some "2024-01-01T00:00:00", some [("a", JValue.num 1)]⟩
        []).broadcasts
      = [⟨some "2024-01-01T00:00:00", some [("a", JValue.num 1)]⟩] :=
  ((broadcast_iff_success false ⟨some "2024-01-01T00:00:00", some [("a", JValue.num 1)]⟩
      []).2.1 (by decide)).1

theorem bindRows_num (ts : String) (sigs : List (String × ℚ)) :
    bindRows ts (sigs.map (fun q => (q.1, JValue.num q.2))) =
      some (sigs.map (fun q => (⟨ts, q.1, StoredValue.real q.2⟩ : Row))) := by
  induction sigs with
  | nil => rfl
  | cons a t ih => simp [bindRows, bindValue, ih]

/-- Claim C1: a valid batch (non-empty timestamp, non-empty mapping of
distinct signal names to numbers) ingests successfully, and a
subsequent historical query whose cutoff is at or before the batch
timestamp returns each submitted pair exactly once with its value
unchanged: the series under each submitted name is exactly the single
submitted point. -/
theorem valid_batch_round_trip (ts cutoff : String) (sigs : List (String × ℚ))
    (hts : ts ≠ "") (hne : sigs ≠ []) (hnodup : (sigs.map Prod.fst).Nodup)
    (hcut : strLe cutoff ts = true) :
    (receive_telemetry false
        ⟨some ts, some (sigs.map (fun q => (q.1, JValue.num q.2)))⟩ []).result
      = IngestResult.success ∧
    ∀ q ∈ sigs,
      (get_recent_telemetry cutoff
        (receive_telemetry false
          ⟨some ts, some (sigs.map (fun q => (q.1, JValue.num q.2)))⟩ []).db).lookup q.1 =
        some [⟨ts, StoredValue.real q.2⟩] := by
  have hne2 : sigs.map (fun q => (q.1, JValue.num q.2)) ≠ [] := by
    cases sigs with
    | nil => exact absurd rfl hne
    | cons a t => simp
  have houtcome : receive_telemetry false
      ⟨some ts, some (sigs.map (fun q => (q.1, JValue.num q.2)))⟩ [] =
      ⟨IngestResult.success, sigs.map (fun q => (⟨ts, q.1, StoredValue.real q.2⟩ : Row)),
        [⟨some ts, some (sigs.map (fun q => (q.1, JValue.num q.2)))⟩]⟩ := by
    unfold receive_telemetry
    simp [hts, hne2, store_telemetry, bindRows_num]
  refine ⟨by rw [houtcome], ?_⟩
  intro q hq
  rw [houtcome]
  have hts2 : ∀ r ∈ sigs.map (fun q => (⟨ts, q.1, StoredValue.real q.2⟩ : Row)),
      r.timestamp = ts := by
    intro r hr
    obtain ⟨w, _, rfl⟩ := List.mem_map.mp hr
    rfl
  have hquery : queryRows cutoff
      (sigs.map (fun q => (⟨ts, q.1, StoredValue.real q.2⟩ : Row))) =
      sigs.map (fun q => (⟨ts, q.1, StoredValue.real q.2⟩ : Row)) := by
    rw [queryRows]
    rw [List.filter_eq_self.mpr (by intro r hr; rw [hts2 r hr]; exact hcut)]
    exact sortLe_of_const_ts _ ts hts2
  rw [get_recent_telemetry, lookup_groupBySignal, hquery]
  have hfil : (sigs.map (fun w => (⟨ts, w.1, StoredValue.real w.2⟩ : Row))).filter
      (fun r => r.signal_name == q.1) = [(⟨ts, q.1, StoredValue.real q.2⟩ : Row)] := by
    rw [List.filter_map]
    have hinner : sigs.filter ((fun r => r.signal_name == q.1) ∘
        (fun w => (⟨ts, w.1, StoredValue.real w.2⟩ : Row))) = [q] :=
      filter_key_of_nodup hnodup hq
    rw [hinner]
    rfl
  rw [hfil]
  simp [rowPoint]

/-- Witness for C1: a concrete two-signal batch round-trips, each
signal appearing exactly once with its value. -/
theorem valid_batch_round_trip_witness :
    (receive_telemetry false
        ⟨some "2024-01-01T00:00:00",
          some (([("a", (1 : ℚ)), ("b", 2)]).map (fun q => (q.1, JValue.num q.2)))⟩
        []).result = IngestResult.success ∧
    ∀ q ∈ [("a", (1 : ℚ)), ("b", 2)],
      (get_recent_telemetry "2024-01-01T00:00:00"
        (receive_telemetry false
          ⟨some "2024-01-01T00:00:00",
            some (([("a", (1 : ℚ)), ("b", 2)]).map (fun q => (q.1, JValue.num q.2)))⟩
          []).db).lookup q.1 =
        some [⟨"2024-01-01T00:00:00", StoredValue.real q.2⟩] :=
  valid_batch_round_trip "2024-01-01T00:00:00" "2024-01-01T00:00:00"
    [("a", 1), ("b", 2)] (by decide) (by decide) (by decide) (by decide)

/-- Claim C7: the signal listing is the lexicographically sorted,
duplicate-free set of the signal names appearing in stored rows, and a
repeated call with no ingestion in between returns the same list. -/
theorem signals_sorted_distinct_stable (db : Store) :
    (list_signals db).Pairwise (fun a b => strLe a b = true) ∧
    (list_signals db).Nodup ∧
    (∀ n : String, n ∈ list_signals db ↔ ∃ r ∈ db, r.signal_name = n) ∧
    (get_signals_handler ((get_signals_handler db).2)).1 = (get_signals_handler db).1 := by
  refine ⟨sorted_sortLe strLe (fun a b c h1 h2 => strLe_trans h1 h2) strLe_total _,
    ?_, ?_, rfl⟩
  · exact (perm_sortLe strLe _).nodup_iff.mpr (List.nodup_dedup _)
  · intro n
    rw [list_signals, (perm_sortLe strLe _).mem_iff, List.mem_dedup, List.mem_map]

/-- Claim C8: no operation mutates or deletes a stored row: whenever
the store append commits it only extends the table (the old table is a
prefix of the new one), the ingest endpoint only extends the table on
every path (a failed append rolls back, leaving it untouched), and
both read handlers leave the table exactly as it was. -/
theorem operations_preserve_rows :
    (∀ (ts : String) (sigs : List (String × JValue)) (db db2 : Store),
      store_telemetry ts sigs db = some db2 → db <+: db2) ∧
    (∀ (storeFails : Bool) (p : Payload) (db : Store),
      db <+: (receive_telemetry storeFails p db).db) ∧
    (∀ (cutoff : String) (db : Store), (get_telemetry_handler cutoff db).2 = db) ∧
    (∀ db : Store, (get_signals_handler db).2 = db) := by
  have hstore : ∀ (ts : String) (sigs : List (String × JValue)) (db db2 : Store),
      store_telemetry ts sigs db = some db2 → db <+: db2 := by
    intro ts sigs db db2 h
    unfold store_telemetry at h
    cases hb : bindRows ts sigs with
    | none => rw [hb] at h; cases h
    | some rows =>
      rw [hb] at h
      exact ⟨rows, Option.some.inj h⟩
  refine ⟨hstore, ?_, fun _ _ => rfl, fun _ => rfl⟩
  intro storeFails p db
  simp only [receive_telemetry]
  split
  · exact ⟨[], List.append_nil db⟩
  · split
    · exact ⟨[], List.append_nil db⟩
    · split
      · rename_i db2 heq
        exact hstore _ _ _ _ heq
      · exact ⟨[], List.append_nil db⟩

/-- Witness for C8: a committed append leaves the old (empty) store as
a prefix of the new one. -/
theorem operations_preserve_rows_witness :
    ([] : Store) <+: [⟨"2024-01-01T00:00:00", "a", StoredValue.real 1⟩] :=
  operations_preserve_rows.1 "2024-01-01T00:00:00" [("a", JValue.num 1)] []
    [⟨"2024-01-01T00:00:00", "a", StoredValue.real 1⟩] (by decide)

/-- Claim C9: the historical query has no upper time bound: a stored
row whose timestamp is at or after the cutoff is returned even when
its timestamp is strictly after the current time. -/
theorem no_upper_time_bound (db : Store) (cutoff now : String) (r : Row)
    (hmem : r ∈ db) (hcut : strLe cutoff r.timestamp = true)
    (_hfuture : strLe r.timestamp now = false) :
    r ∈ queryRows cutoff db ∧
    ∃ ps, (get_recent_telemetry cutoff db).lookup r.signal_name = some ps ∧
      rowPoint r ∈ ps := by
  have hq : r ∈ queryRows cutoff db := mem_queryRows.mpr ⟨hmem, hcut⟩
  refine ⟨hq, ?_⟩
  rw [get_recent_telemetry, lookup_groupBySignal]
  have hfil : r ∈ (queryRows cutoff db).filter (fun x => x.signal_name == r.signal_name) :=
    List.mem_filter.mpr ⟨hq, by simp⟩
  rw [if_neg (by intro hc; rw [hc] at hfil; cases hfil)]
  exact ⟨_, rfl, List.mem_map.mpr ⟨r, hfil, rfl⟩⟩

/-- Witness for C9: a sample dated in 2999 is returned by a query whose
cutoff is in 2024, with "now" in 2025 well before the sample. -/
theorem no_upper_time_bound_witness :
    (⟨"2999-01-01T00:00:00", "a", StoredValue.real 1⟩ : Row) ∈
      queryRows "2024-01-01T00:00:00" [⟨"2999-01-01T00:00:00", "a", StoredValue.real 1⟩] ∧
    ∃ ps, (get_recent_telemetry "2024-01-01T00:00:00"
        [⟨"2999-01-01T00:00:00", "a", StoredValue.real 1⟩]).lookup
        (Row.signal_name ⟨"2999-01-01T00:00:00", "a", StoredValue.real 1⟩) = some ps ∧
      rowPoint ⟨"2999-01-01T00:00:00", "a", StoredValue.real 1⟩ ∈ ps :=
  no_upper_time_bound [⟨"2999-01-01T00:00:00", "a", StoredValue.real 1⟩]
    "2024-01-01T00:00:00" "2025-06-01T00:00:00" ⟨"2999-01-01T00:00:00", "a", StoredValue.real 1⟩
    (by decide) (by decide) (by decide)

/-- Claim C10: ingest is not idempotent: submitting the identical
payload twice stores the row twice, and a query covering the
timestamp returns the submitted pair twice. -/
theorem double_ingest_duplicates :
    (receive_telemetry false ⟨some "2024-01-01T00:00:00", some [("a", JValue.num 1)]⟩
        (receive_telemetry false ⟨some "2024-01-01T00:00:00", some [("a", JValue.num 1)]⟩
          []).db).result = IngestResult.success ∧
    (receive_telemetry false ⟨some "2024-01-01T00:00:00", some [("a", JValue.num 1)]⟩
        (receive_telemetry false ⟨some "2024-01-01T00:00:00", some [("a", JValue.num 1)]⟩
          []).db).db.count ⟨"2024-01-01T00:00:00", "a", StoredValue.real 1⟩ = 2 ∧
    (get_recent_telemetry "2024-01-01T00:00:00"
        (receive_telemetry false ⟨some "2024-01-01T00:00:00", some [("a", JValue.num 1)]⟩
          (receive_telemetry false ⟨some "2024-01-01T00:00:00", some [("a", JValue.num 1)]⟩
            []).db).db).lookup "a"
      = some [⟨"2024-01-01T00:00:00", StoredValue.real 1⟩, ⟨"2024-01-01T00:00:00", StoredValue.real 1⟩] := by
  refine ⟨rfl, ?_, ?_⟩ <;> decide

end TelemetryApp
